import Mathlib

/-!
Verification of music21j: the miditools module (MIDI event wrapping, chord
aggregation, duration quantization, flush) and the prebase module (class
introspection and deep clone). JavaScript numbers are modelled as rationals,
the module-level mutable `config` as an explicit record threaded through the
functions, `Date.now()` as an explicit `now` argument, and the possibly
non-terminating deep clone as a fuel-indexed function on an explicit heap.
-/

/-- Math.round: rounds to the nearest integer, halves toward positive
infinity; on the reals this is `floor (q + 1/2)`. -/
def jsRound (q : ℚ) : ℤ := ⌊q + 1/2⌋

/-- A music21 `note.Note` as far as miditools touches it: `pitch.ps`,
`duration.quarterLength` and `stemDirection`. -/
structure MNote where
  ps : ℚ
  quarterLength : ℚ
  stemDirection : Option String
  deriving DecidableEq, Repr

/-- A music21 `chord.Chord` as far as miditools touches it: its ordered note
list, `duration.quarterLength` and `stemDirection`. -/
structure MChord where
  notes : List MNote
  quarterLength : ℚ
  stemDirection : Option String
  deriving DecidableEq, Repr

/-- The value of `config.lastElement`: a Note or a Chord (both are
`GeneralNote`s in music21). -/
inductive MElement where
  | noteEl (n : MNote)
  | chordEl (c : MChord)
  deriving DecidableEq, Repr

/-- Assignment `el.stemDirection = sd` on a Note or Chord. -/
def MElement.setStem : MElement → Option String → MElement
  | MElement.noteEl n, sd => MElement.noteEl { n with stemDirection := sd }
  | MElement.chordEl c, sd => MElement.chordEl { c with stemDirection := sd }

/-- Assignment `el.duration.quarterLength = q` on a Note or Chord. -/
def MElement.setQL : MElement → ℚ → MElement
  | MElement.noteEl n, q => MElement.noteEl { n with quarterLength := q }
  | MElement.chordEl c, q => MElement.chordEl { c with quarterLength := q }

/-- Read `el.duration.quarterLength` of a Note or Chord. -/
def MElement.quarterLength : MElement → ℚ
  | MElement.noteEl n => n.quarterLength
  | MElement.chordEl c => c.quarterLength

/-- Modelled from the spec: the `chord.Chord` constructor
(src/music21/chord.ts is not among the sources; miditools only calls
`new chord.Chord(chordNoteList)`). Per the spec the aggregator "builds a
single chord entity" "containing all of them, in first-seen order", so the
constructor stores the passed note list unchanged; a fresh music21 duration
defaults to one quarter note, and no stem direction is set yet. -/
def chordOf (chordNoteList : List MNote) : MChord :=
  { notes := chordNoteList, quarterLength := 1, stemDirection := none }

/-- The miditools module state: the mutable fields of `config`
(part_001 lines 34-170).  `tempo` is a derived property, see below. -/
structure MConfig where
  transposeOctave : ℤ
  maxDelay : ℚ
  heldChordTime : ℚ
  heldChordNotes : Option (List MNote)
  timeOfLastNote : ℚ
  lastElement : Option MElement
  _baseTempo : ℚ
  metronome : Option ℚ
  sendOutChordCbDefined : Bool
  deriving DecidableEq, Repr

/-- The `config.tempo` getter (part_001 lines 152-170): the metronome tempo
when a metronome is assigned, else the local `_baseTempo` fallback. -/
def MConfig.tempo (c : MConfig) : ℚ :=
  match c.metronome with
  | none => c._baseTempo
  | some m => m

/-- A `miditools.Event` (part_001 lines 50-65): raw fields plus the derived
command nibble, note-on and note-off flags, and the optional note fields. -/
structure Event where
  timing : ℚ
  data1 : ℕ
  data2 : ℕ
  data3 : ℕ
  midiCommand : ℕ
  noteOff : Bool
  noteOn : Bool
  midiNote : Option ℤ
  velocity : Option ℕ
  deriving DecidableEq, Repr

/-- The `Event` constructor (part_001 lines 51-65): `midiCommand = a >> 4`;
`midiNote` and `velocity` are assigned only when the event is a note-on or a
note-off, with `midiNote = data2 + 12 * config.transposeOctave`. -/
def mkEvent (transposeOctave : ℤ) (t : ℚ) (a b c : ℕ) : Event :=
  let midiCommand := a >>> 4
  let noteOff := decide (midiCommand = 8)
  let noteOn := decide (midiCommand = 9)
  { timing := t
    data1 := a
    data2 := b
    data3 := c
    midiCommand := midiCommand
    noteOff := noteOff
    noteOn := noteOn
    midiNote := if noteOn || noteOff then some ((b : ℤ) + 12 * transposeOctave) else none
    velocity := if noteOn || noteOff then some c else none }

/-- `Event.music21Note()` (part_001 lines 93-97): a fresh `note.Note` whose
`pitch.ps` is set to the event `midiNote`.  `note.Note` itself is not among
the sources; a fresh note carries the music21 default quarterLength 1 and no
stem direction, and only `ps` matters to the aggregation claims.  When
`midiNote` is unset (never the case for the note-on events that reach this
call) the model uses 0. -/
def Event.music21Note (e : Event) : MNote :=
  { ps := ((e.midiNote.getD 0 : ℤ) : ℚ), quarterLength := 1, stemDirection := none }

/-- `makeChords(jEvent)` (part_001 lines 213-229): on a note-on, start a new
held list, or scan the held list and drop the note if a pending entry has the
same `pitch.ps`, else push it at the end. -/
def makeChords (st : MConfig) (jEvent : Event) : MConfig :=
  if jEvent.noteOn then
    let m21n := jEvent.music21Note
    match st.heldChordNotes with
    | none => { st with heldChordNotes := some [m21n] }
    | some held =>
      if held.any (fun foundNote => decide (foundNote.ps = m21n.ps)) then st
      else { st with heldChordNotes := some (held ++ [m21n]) }
  else st

/-- `quantizeLastNote(lastElement)` (part_001 lines 272-301).  An undefined
argument returns immediately.  Otherwise the stem direction is cleared
(both Note and Chord are `GeneralNote`s), the elapsed time since
`timeOfLastNote` is converted to quarter notes at the current tempo, rounded
to the nearest 1/4, snapped by the if-chain, and written to the element
duration; `timeOfLastNote` advances to `now`.  The ambiguous JavaScript
`this` of the source is modelled as the miditools config state. -/
def quantizeLastNote (st : MConfig) (nowInMS : ℚ) (lastElement : Option MElement) :
    Option MElement × MConfig :=
  match lastElement with
  | none => (none, st)
  | some el =>
    let el := el.setStem none
    let msSinceLastNote := nowInMS - st.timeOfLastNote
    let st := { st with timeOfLastNote := nowInMS }
    let normalQuarterNoteLength : ℚ := 1000 * 60 / st.tempo
    let numQuarterNotes := msSinceLastNote / normalQuarterNoteLength
    let r0 : ℚ := (jsRound (4 * numQuarterNotes) : ℚ) / 4
    let roundedQuarterLength : ℚ :=
      if r0 ≥ 4 then 4
      else if r0 ≥ 3 then 3
      else if r0 > 2 then 2
      else if r0 = 5/4 then 1
      else if r0 = 3/4 then 1/2
      else if r0 = 0 then 1/8
      else r0
    (some (el.setQL roundedQuarterLength), st)

/-- Modelled from the spec wording of section 4.3, for comparison with the
source embedding `quantizeLastNote`: elapsed milliseconds are converted via
`elapsedMs / (60000 / tempo)`, rounded to the nearest 1/4, then snapped in
priority order ≥4→4; ≥3→3; >2→2; =1.25→1; =0.75→0.5; =0→0.125. -/
def specQuantizedDuration (elapsedMs tempo : ℚ) : ℚ :=
  let rounded : ℚ := (jsRound (4 * (elapsedMs / (60000 / tempo))) : ℚ) / 4
  if rounded ≥ 4 then 4
  else if rounded ≥ 3 then 3
  else if rounded > 2 then 2
  else if rounded = 5/4 then 1
  else if rounded = 3/4 then 1/2
  else if rounded = 0 then 1/8
  else rounded

/-- Result of `sendOutChord`: its return value, the updated module state, and
the list of elements handed to the `callBacks.sendOutChord` callback. -/
structure SendOutResult where
  ret : Option MElement
  state : MConfig
  emitted : List MElement
  deriving DecidableEq, Repr

/-- `sendOutChord(chordNoteList)` (part_001 lines 240-257): an empty list
returns undefined with no effect; two or more notes build a Chord, exactly
one passes the note through; the stem is set to noStem, `quantizeLastNote()`
is invoked with no argument, `lastElement` is updated, and the callback
(when defined) receives the element. -/
def sendOutChord (st : MConfig) (nowInMS : ℚ) (chordNoteList : List MNote) :
    SendOutResult :=
  match chordNoteList with
  | [] => { ret := none, state := st, emitted := [] }
  | n :: rest =>
    let appendObject : MElement :=
      if 1 < (n :: rest).length then MElement.chordEl (chordOf (n :: rest))
      else MElement.noteEl n
    let appendObject := appendObject.setStem (some "noStem")
    let q := quantizeLastNote st nowInMS none
    let st1 := { q.2 with lastElement := some appendObject }
    { ret := some appendObject
      state := st1
      emitted := if st1.sendOutChordCbDefined then [appendObject] else [] }

/-- Result of one `clearOldChords` tick: updated state and emitted elements.
The `setTimeout` re-arming of the tick has no state effect and is omitted. -/
structure TickResult where
  state : MConfig
  emitted : List MElement
  deriving DecidableEq, Repr

/-- `clearOldChords()` (part_001 lines 191-203): when the window has expired
(`heldChordTime + maxDelay < now`), `heldChordTime` is advanced to `now`
unconditionally; pending notes, if any, are then flushed through
`sendOutChord` and the held list is cleared. -/
def clearOldChords (st : MConfig) (nowInMs : ℚ) : TickResult :=
  if st.heldChordTime + st.maxDelay < nowInMs then
    let st1 := { st with heldChordTime := nowInMs }
    match st1.heldChordNotes with
    | some held =>
      let r := sendOutChord st1 nowInMs held
      { state := { r.state with heldChordNotes := none }, emitted := r.emitted }
    | none => { state := st1, emitted := [] }
  else { state := st, emitted := [] }

/-- Pitch list of the held chord notes (undefined reads as the empty list). -/
def pitchesOf (o : Option (List MNote)) : List ℚ := (o.getD []).map MNote.ps

/- ------------------ prebase.ts: class introspection ------------------ -/

/-- `constructorName.slice(constructorName.lastIndexOf('.') + 1)`
(prebase.ts line 77): the suffix after the last dot, the whole string when
there is no dot. -/
def shortNameOf (s : String) : String :=
  String.mk ((s.toList.reverse.takeWhile (fun ch => ch != '.')).reverse)

/-- The loop of `_populateClassCaches` (prebase.ts lines 68-83): walk the
chain of declared class names, stopping at the end of the chain, at an
undefined (`none`) or empty name, or when the hop budget runs out, and
collect the short names. -/
def walkChain : ℕ → List (Option String) → List String
  | 0, _ => []
  | _ + 1, [] => []
  | _ + 1, none :: _ => []
  | k + 1, some s :: rest =>
    if s = "" then [] else shortNameOf s :: walkChain k rest

/-- `_populateClassCaches` (prebase.ts lines 63-87): at most `maxLinks = 20`
hops, then `'object'` is pushed as the final entry. -/
def populateClassCaches (chain : List (Option String)) : List String :=
  walkChain 20 chain ++ ["object"]

/-- Specification-side description of the walk: the declared class names up
to (not including) the first sentinel, an undefined or empty name, with no
hop budget. `walkChain k` is its `take k` image under `shortNameOf`. -/
def sentinelNames : List (Option String) → List String
  | [] => []
  | none :: _ => []
  | some s :: rest => if s = "" then [] else s :: sentinelNames rest

/-- A `ProtoM21Object` for the introspection claims: the declared class names
along its constructor prototype chain (closest-first; `none` plays the role
of an undefined `className`) and the `_storedClasses` cache.  The parallel
`_storedClassSet` cache is not needed by the claims and is omitted. -/
structure ProtoM21Object where
  chain : List (Option String)
  _storedClasses : Option (List String)
  deriving DecidableEq, Repr

/-- The `classes` getter (prebase.ts lines 52-58): return the cache when
present, else populate it; the getter returns the value together with the
possibly-updated object. -/
def ProtoM21Object.classes (o : ProtoM21Object) : List String × ProtoM21Object :=
  match o._storedClasses with
  | some cs => (cs, o)
  | none =>
    let cs := populateClassCaches o.chain
    (cs, { o with _storedClasses := some cs })

/- ------------------ prebase.ts: deep clone ------------------ -/

/-- A JavaScript value stored in a field: a number, a string, or a reference
to a `ProtoM21Object` on the heap (`isProtoM21Object` objects are the ones
the clone recurses into). -/
inductive JVal where
  | num (q : ℚ)
  | str (s : String)
  | ref (a : ℕ)
  deriving DecidableEq, Repr

/-- How an own enumerable field presents itself to the clone loop
(prebase.ts lines 121-169): a plain value, a function-valued field, an
accessor property, or a field whose plain copy raises (the raised error is
identified by whether it is a TypeError plus an id). `_cloneCallbacks` is
empty for plain `ProtoM21Object`s and is not modelled. -/
inductive FieldSpec where
  | val (v : JVal)
  | func
  | accessor
  | throwing (isTypeError : Bool) (errId : ℕ)
  deriving DecidableEq, Repr

/-- A heap object: its own enumerable fields in enumeration order. -/
structure JObj where
  fields : List (String × FieldSpec)
  deriving DecidableEq, Repr

/-- The heap: an association list from addresses to objects. -/
abbrev Heap := List (ℕ × JObj)

/-- The `memo` WeakMap, as an association list from source addresses to clone
addresses.  The source constructs it and reads it (`memo.has`, `memo.get`)
but never writes an entry. -/
abbrev Memo := List (ℕ × ℕ)

/-- Result of a fuel-indexed clone step: `diverge` when the fuel runs out
(the JavaScript original would still be recursing — unbounded recursion),
`err` when an uncaught error propagates, `ok` otherwise. -/
inductive CloneRes (α : Type) where
  | diverge
  | err (isTypeError : Bool) (errId : ℕ)
  | ok (a : α)
  deriving DecidableEq, Repr

/-- The field loop of `clone` (prebase.ts lines 121-169), with the recursive
clone call abstracted as `recur`: accessor properties and function-valued
fields are skipped; a nested `isProtoM21Object` value consults `memo` and
otherwise recurses; a plain copy that raises a TypeError is logged and
swallowed (the loop continues), any other raised error propagates. -/
def cloneFieldsWith
    (recur : Heap → ℕ → Memo → ℕ → CloneRes (ℕ × Heap × ℕ)) :
    Heap → ℕ → Memo → List (String × FieldSpec) →
      CloneRes (List (String × FieldSpec) × Heap × ℕ)
  | heap, next, _, [] => CloneRes.ok ([], heap, next)
  | heap, next, memo, (key, fspec) :: rest =>
    match fspec with
    | FieldSpec.accessor => cloneFieldsWith recur heap next memo rest
    | FieldSpec.func => cloneFieldsWith recur heap next memo rest
    | FieldSpec.throwing true _ => cloneFieldsWith recur heap next memo rest
    | FieldSpec.throwing false i => CloneRes.err false i
    | FieldSpec.val (JVal.ref a) =>
      (match memo.lookup a with
       | some c =>
         match cloneFieldsWith recur heap next memo rest with
         | CloneRes.ok (fs, h2, n2) =>
           CloneRes.ok ((key, FieldSpec.val (JVal.ref c)) :: fs, h2, n2)
         | CloneRes.err b i => CloneRes.err b i
         | CloneRes.diverge => CloneRes.diverge
       | none =>
         match recur heap next memo a with
         | CloneRes.ok (c, heap1, next1) =>
           match cloneFieldsWith recur heap1 next1 memo rest with
           | CloneRes.ok (fs, h2, n2) =>
             CloneRes.ok ((key, FieldSpec.val (JVal.ref c)) :: fs, h2, n2)
           | CloneRes.err b i => CloneRes.err b i
           | CloneRes.diverge => CloneRes.diverge
         | CloneRes.err b i => CloneRes.err b i
         | CloneRes.diverge => CloneRes.diverge)
    | FieldSpec.val v =>
      match cloneFieldsWith recur heap next memo rest with
      | CloneRes.ok (fs, h2, n2) => CloneRes.ok ((key, FieldSpec.val v) :: fs, h2, n2)
      | CloneRes.err b i => CloneRes.err b i
      | CloneRes.diverge => CloneRes.diverge

/-- `clone(true, memo)` (prebase.ts lines 106-171), fuel-indexed: construct a
fresh instance at address `next`, run the field loop (which may recurse into
nested objects with the same never-written `memo`), then install the fields.
The JavaScript original has no fuel; `CloneRes.diverge` for every fuel means
the original recurses without bound. -/
def cloneObj : ℕ → Heap → ℕ → Memo → ℕ → CloneRes (ℕ × Heap × ℕ)
  | 0, _, _, _, _ => CloneRes.diverge
  | fuel + 1, heap, next, memo, addr =>
    match heap.lookup addr with
    | none => CloneRes.diverge
    | some obj =>
      match cloneFieldsWith (cloneObj fuel) heap (next + 1) memo obj.fields with
      | CloneRes.ok (fs, heap1, next1) =>
        CloneRes.ok (next, (next, JObj.mk fs) :: heap1, next1)
      | CloneRes.err b i => CloneRes.err b i
      | CloneRes.diverge => CloneRes.diverge

/-- Whether a field holds a reference to a nested object. -/
def FieldSpec.isRef : FieldSpec → Bool
  | FieldSpec.val (JVal.ref _) => true
  | _ => false

/-- A field list with no nested-object references (the clone loop then never
recurses, whatever the fuel). -/
def flatFields : List (String × FieldSpec) → Bool
  | [] => true
  | (_, fspec) :: rest => !fspec.isRef && flatFields rest

/-- The error id of the first field whose copy raises a non-TypeError. -/
def firstNonTE : List (String × FieldSpec) → Option ℕ
  | [] => none
  | (_, FieldSpec.throwing false i) :: _ => some i
  | _ :: rest => firstNonTE rest

/-- The fields a fully successful clone loop copies: the plain values, in
order; accessors, functions and swallowed TypeErrors are skipped. -/
def copiedFields : List (String × FieldSpec) → List (String × FieldSpec)
  | [] => []
  | (k, FieldSpec.val v) :: rest => (k, FieldSpec.val v) :: copiedFields rest
  | _ :: rest => copiedFields rest

/- ------------------ concrete instances for the claims ------------------ -/

/-- A fresh miditools state: the module defaults of part_001 (maxDelay 100,
heldChordTime 0, nothing held, base tempo 60, no metronome, the default
`sendOutChord` callback defined), with `timeOfLastNote` normalised to 0. -/
def sampleConfig : MConfig :=
  { transposeOctave := 0
    maxDelay := 100
    heldChordTime := 0
    heldChordNotes := none
    timeOfLastNote := 0
    lastElement := none
    _baseTempo := 60
    metronome := none
    sendOutChordCbDefined := true }

/-- Middle C as produced by `Event.music21Note`. -/
def sampleNote : MNote := { ps := 60, quarterLength := 1, stemDirection := none }

/-- A note with a recognisable pre-existing duration and stem, to observe
whether a flush rewrites them. -/
def wNote : MNote := { ps := 60, quarterLength := 99, stemDirection := some "up" }

/-- A second pitch for two-note chords. -/
def wNote3 : MNote := { ps := 64, quarterLength := 1, stemDirection := none }

/-- A state already holding middle C. -/
def heldConfig : MConfig := { sampleConfig with heldChordNotes := some [sampleNote] }

/-- A note-on event for middle C: status byte 144 = 0x90. -/
def noteOnEvent : Event := mkEvent 0 0 144 60 100

/-- A two-level hierarchy: a Note below the base ProtoM21Object, above which
the declared class name is undefined. -/
def demoChainObj : ProtoM21Object :=
  { chain := [some "music21.note.Note", some "music21.prebase.ProtoM21Object", none]
    _storedClasses := none }

/-- Two ProtoM21Objects referencing each other through a field. -/
def cyclicHeap : Heap :=
  [(0, JObj.mk [("partner", FieldSpec.val (JVal.ref 1))]),
   (1, JObj.mk [("partner", FieldSpec.val (JVal.ref 0))])]

/-- A flat field list mixing plain values, a swallowed TypeError and an
accessor. -/
def sampleFields : List (String × FieldSpec) :=
  [("a", FieldSpec.val (JVal.num 1)),
   ("b", FieldSpec.throwing true 7),
   ("c", FieldSpec.val (JVal.str "x")),
   ("d", FieldSpec.accessor)]

/- ------------------ shared evaluation lemmas ------------------ -/

lemma jsRound_eq_of (q : ℚ) (n : ℤ) (h1 : (n : ℚ) ≤ q + 1/2) (h2 : q + 1/2 < (n : ℚ) + 1) :
    jsRound q = n := by
  unfold jsRound
  exact Int.floor_eq_iff.mpr ⟨h1, h2⟩

lemma specQuantizedDuration_1000_60 : specQuantizedDuration 1000 60 = 1 := by
  have hj : jsRound (4 * ((1000 : ℚ) / (60000 / 60))) = 4 := by
    rw [show (4 * ((1000 : ℚ) / (60000 / 60))) = 4 by norm_num]
    exact jsRound_eq_of 4 4 (by norm_num) (by norm_num)
  simp only [specQuantizedDuration]
  rw [hj]
  norm_num

lemma specQuantizedDuration_4000_60 : specQuantizedDuration 4000 60 = 4 := by
  have hj : jsRound (4 * ((4000 : ℚ) / (60000 / 60))) = 16 := by
    rw [show (4 * ((4000 : ℚ) / (60000 / 60))) = 16 by norm_num]
    exact jsRound_eq_of 16 16 (by norm_num) (by norm_num)
  simp only [specQuantizedDuration]
  rw [hj]
  norm_num

lemma specQuantizedDuration_0_60 : specQuantizedDuration 0 60 = 1/8 := by
  have hj : jsRound (4 * ((0 : ℚ) / (60000 / 60))) = 0 := by
    rw [show (4 * ((0 : ℚ) / (60000 / 60))) = 0 by norm_num]
    exact jsRound_eq_of 0 0 (by norm_num) (by norm_num)
  simp only [specQuantizedDuration]
  rw [hj]
  norm_num

lemma specQuantizedDuration_2000_60 : specQuantizedDuration 2000 60 = 2 := by
  have hj : jsRound (4 * ((2000 : ℚ) / (60000 / 60))) = 8 := by
    rw [show (4 * ((2000 : ℚ) / (60000 / 60))) = 8 by norm_num]
    exact jsRound_eq_of 8 8 (by norm_num) (by norm_num)
  simp only [specQuantizedDuration]
  rw [hj]
  norm_num

/- ------------------ C10 ------------------ -/

/-- C10: calling `sendOutChord` with an empty note list returns no result and
is atomic: the callback is not invoked (nothing emitted), `lastElement` is
not updated and the quantizer previous-timestamp `timeOfLastNote` is left
unchanged — the whole state is returned as it came in. -/
theorem sendOutChord_empty_noop (st : MConfig) (now : ℚ) :
    sendOutChord st now [] = { ret := none, state := st, emitted := [] } := rfl

/- ------------------ C6 ------------------ -/

/-- C6: for every constructed MidiEvent, the derived command is the top
nibble `a >> 4`; the note-number and velocity fields are set if and only if
the command is 8 (note-off) or 9 (note-on), in which case the note number is
`b + 12 * transposeOctave` and the velocity is `c`; any other status value
leaves both fields unset. -/
theorem mkEvent_fields (transposeOctave : ℤ) (t : ℚ) (a b c : ℕ) :
    (mkEvent transposeOctave t a b c).midiCommand = a / 2 ^ 4 ∧
    ((a / 2 ^ 4 = 8 ∨ a / 2 ^ 4 = 9) →
      (mkEvent transposeOctave t a b c).midiNote = some ((b : ℤ) + 12 * transposeOctave) ∧
      (mkEvent transposeOctave t a b c).velocity = some c) ∧
    (¬(a / 2 ^ 4 = 8 ∨ a / 2 ^ 4 = 9) →
      (mkEvent transposeOctave t a b c).midiNote = none ∧
      (mkEvent transposeOctave t a b c).velocity = none) := by
  refine ⟨by simp [mkEvent, Nat.shiftRight_eq_div_pow], ?_, ?_⟩
  · intro h
    have h' : a / 16 = 8 ∨ a / 16 = 9 := by simpa using h
    rcases h' with h' | h' <;> simp [mkEvent, Nat.shiftRight_eq_div_pow, h']
  · intro h
    push_neg at h
    obtain ⟨h8, h9⟩ := h
    have h8' : ¬a / 16 = 8 := by simpa using h8
    have h9' : ¬a / 16 = 9 := by simpa using h9
    simp [mkEvent, Nat.shiftRight_eq_div_pow, h8', h9']

/- ------------------ C3 ------------------ -/

lemma makeChords_preserves_nodup (st : MConfig) (ev : Event)
    (h : (pitchesOf st.heldChordNotes).Nodup) :
    (pitchesOf (makeChords st ev).heldChordNotes).Nodup := by
  unfold makeChords
  cases hOn : ev.noteOn with
  | false => simpa [hOn] using h
  | true =>
    cases hH : st.heldChordNotes with
    | none => simp [hOn, hH, pitchesOf]
    | some held =>
      by_cases hA :
          held.any (fun foundNote => decide (foundNote.ps = ev.music21Note.ps)) = true
      · simpa [hOn, hH, hA] using h
      · rw [hH] at h
        simp only [pitchesOf, Option.getD_some] at h
        simp only [hOn, hH, if_true, Bool.not_eq_true] at hA ⊢
        simp only [hA, if_false, Bool.false_eq_true, pitchesOf, Option.getD_some,
          List.map_append, List.map_cons, List.map_nil]
        refine List.Nodup.append h (List.nodup_singleton _) ?_
        intro x hx hy
        simp only [List.mem_singleton] at hy
        subst hy
        obtain ⟨f, hf, hfe⟩ := List.mem_map.mp hx
        have : held.any (fun foundNote => decide (foundNote.ps = ev.music21Note.ps)) = true := by
          rw [List.any_eq_true]
          exact ⟨f, hf, by simp [hfe]⟩
        simp [this] at hA

/-- C3: across any sequence of events routed through `makeChords`, the held
chord set never contains two entries with the same `pitch.ps`, and a note-on
whose pitch duplicates a pending entry leaves the state entirely unchanged
(silently dropped, not an error). -/
theorem makeChords_pitch_nodup (st : MConfig) (evs : List Event)
    (h : (pitchesOf st.heldChordNotes).Nodup) :
    (pitchesOf ((evs.foldl makeChords st).heldChordNotes)).Nodup ∧
    (∀ ev ns, ev.noteOn = true → st.heldChordNotes = some ns →
      ev.music21Note.ps ∈ ns.map MNote.ps → makeChords st ev = st) := by
  constructor
  · induction evs generalizing st with
    | nil => exact h
    | cons e es ih => exact ih _ (makeChords_preserves_nodup st e h)
  · intro ev ns hOn hNs hMem
    have hA : ns.any (fun foundNote => decide (foundNote.ps = ev.music21Note.ps)) = true := by
      rw [List.any_eq_true]
      obtain ⟨f, hf, hfe⟩ := List.mem_map.mp hMem
      exact ⟨f, hf, by simp [hfe]⟩
    simp [makeChords, hOn, hNs, hA]

/-- Witness for C3 at a concrete input: with middle C pending, a second
note-on for middle C leaves the state unchanged and the pitch list stays
duplicate-free. -/
theorem makeChords_pitch_nodup_witness :
    (pitchesOf heldConfig.heldChordNotes).Nodup ∧
    (pitchesOf (([noteOnEvent].foldl makeChords heldConfig).heldChordNotes)).Nodup ∧
    makeChords heldConfig noteOnEvent = heldConfig := by
  have h := makeChords_pitch_nodup heldConfig [noteOnEvent] (by decide)
  exact ⟨by decide, h.1, h.2 noteOnEvent [sampleNote] (by decide) (by decide) (by decide)⟩

/- ------------------ C7 ------------------ -/

lemma walkChain_eq_sentinelNames :
    ∀ (chain : List (Option String)) (k : ℕ),
      walkChain k chain = ((sentinelNames chain).take k).map shortNameOf := by
  intro chain
  induction chain with
  | nil => intro k; cases k <;> rfl
  | cons o rest ih =>
    intro k
    cases k with
    | zero => rfl
    | succ k =>
      cases o with
      | none => rfl
      | some s =>
        by_cases hs : s = ""
        · simp [walkChain, sentinelNames, hs]
        · simp [walkChain, sentinelNames, hs, ih k]

/-- C7: on first access with an empty cache, the `classes` getter returns
the ancestor short class names in closest-first order — the names up to the
first undefined or empty declared name, capped at 20 hops — with `'object'`
as the final entry and hence at most 21 entries; the value is computed once,
and a later access returns the cached value with the object unchanged. -/
theorem classes_spec (o : ProtoM21Object) (h : o._storedClasses = none) :
    (o.classes).1 = ((sentinelNames o.chain).take 20).map shortNameOf ++ ["object"] ∧
    (o.classes).1.getLast? = some "object" ∧
    (o.classes).1.length ≤ 21 ∧
    (o.classes).2.classes = o.classes := by
  have hcs : o.classes =
      (populateClassCaches o.chain,
        { o with _storedClasses := some (populateClassCaches o.chain) }) := by
    simp [ProtoM21Object.classes, h]
  refine ⟨?_, ?_, ?_, ?_⟩
  · rw [hcs]
    simp [populateClassCaches, walkChain_eq_sentinelNames]
  · rw [hcs]
    simp [populateClassCaches, List.getLast?_concat]
  · rw [hcs]
    simp only [populateClassCaches, walkChain_eq_sentinelNames, List.length_append,
      List.length_map, List.length_take, List.length_singleton]
    omega
  · rw [hcs]
    simp [ProtoM21Object.classes]

/-- Witness for C7 on a two-level hierarchy: the classes list is
`[Note, ProtoM21Object, object]` and the second access is cached. -/
theorem classes_spec_witness :
    demoChainObj._storedClasses = none ∧
    (demoChainObj.classes).1 = ["Note", "ProtoM21Object", "object"] ∧
    (demoChainObj.classes).2.classes = demoChainObj.classes := by
  have h := classes_spec demoChainObj rfl
  exact ⟨rfl, h.1.trans (by decide), h.2.2.2⟩

/- ------------------ C1 ------------------ -/

/-- C1 counterexample: a flush of the single pending note `wNote`
(quarterLength 99) at 2000ms with `timeOfLastNote` 0 and tempo 60 emits the
note with quarterLength still 99 — the quantizer, which would compute 2 for
this elapsed time, never touched it, and the quantizer timestamp state is
also untouched.  This refutes the claim that after `sendOutChord` returns
the emitted element's `duration.quarterLength` has been set by
`quantizeLastNote`. -/
theorem sendOutChord_not_quantized_counterexample :
    (sendOutChord sampleConfig 2000 [wNote]).ret =
      some (MElement.noteEl { ps := 60, quarterLength := 99, stemDirection := some "noStem" }) ∧
    specQuantizedDuration (2000 - sampleConfig.timeOfLastNote) sampleConfig.tempo = 2 ∧
    (sendOutChord sampleConfig 2000 [wNote]).state.timeOfLastNote =
      sampleConfig.timeOfLastNote := by
  refine ⟨by decide, ?_, by decide⟩
  rw [show (2000 - sampleConfig.timeOfLastNote : ℚ) = 2000 by norm_num [sampleConfig],
    show sampleConfig.tempo = 60 from rfl]
  exact specQuantizedDuration_2000_60

/-- C1 (amended): for every flush with a non-empty pending list,
`sendOutChord` does invoke `quantizeLastNote` before surfacing the element,
but it passes no argument; `quantizeLastNote` applied to an undefined
element returns immediately without touching anything, so the emitted
element's `duration.quarterLength` is not set by the quantizer — a lone note
keeps its pre-existing quarterLength, a chord keeps the constructor default
1 — and the quantizer timestamp `timeOfLastNote` is unchanged. -/
theorem sendOutChord_quantizeLastNote_noop (st : MConfig) (now : ℚ)
    (notes : List MNote) (h : notes ≠ []) :
    quantizeLastNote st now none = (none, st) ∧
    (sendOutChord st now notes).state.timeOfLastNote = st.timeOfLastNote ∧
    (sendOutChord st now notes).ret.map MElement.quarterLength =
      some (if 2 ≤ notes.length then (1 : ℚ) else (notes.head h).quarterLength) := by
  refine ⟨rfl, ?_, ?_⟩ <;>
    cases notes with
    | nil => exact absurd rfl h
    | cons n rest =>
      cases rest with
      | nil =>
        simp [sendOutChord, quantizeLastNote, MElement.setStem, MElement.quarterLength]
      | cons m rs =>
        have hl : 1 < (n :: m :: rs).length := by simp
        simp [sendOutChord, quantizeLastNote, hl, chordOf, MElement.setStem,
          MElement.quarterLength]

/-- Witness for C1 (amended) at the concrete counterexample input. -/
theorem sendOutChord_quantizeLastNote_noop_witness :
    ([wNote] ≠ ([] : List MNote)) ∧
    (sendOutChord sampleConfig 2000 [wNote]).state.timeOfLastNote =
      sampleConfig.timeOfLastNote ∧
    (sendOutChord sampleConfig 2000 [wNote]).ret.map MElement.quarterLength = some 99 := by
  have h := sendOutChord_quantizeLastNote_noop sampleConfig 2000 [wNote] (by decide)
  exact ⟨by decide, h.2.1, h.2.2.trans (by decide)⟩

/- ------------------ C2 ------------------ -/

/-- C2: for every defined input element, previous timestamp, current
timestamp and (positive) tempo, the quantizer sets the element duration to
exactly the spec formula — `elapsedMs / (60000 / tempo)` rounded to the
nearest 1/4 and snapped in priority order ≥4→4; ≥3→3; >2→2; =1.25→1;
=0.75→0.5; =0→0.125 — advancing the stored timestamp; in particular at tempo
60 an elapsed 1000ms yields 1, 4000ms yields 4 and 0ms yields 0.125. -/
theorem quantizeLastNote_formula (el : MElement) (st : MConfig) (now : ℚ)
    (h : 0 < st.tempo) :
    (quantizeLastNote st now (some el)).1 =
      some ((el.setStem none).setQL
        (specQuantizedDuration (now - st.timeOfLastNote) st.tempo)) ∧
    (quantizeLastNote st now (some el)).2 = { st with timeOfLastNote := now } ∧
    specQuantizedDuration 1000 60 = 1 ∧
    specQuantizedDuration 4000 60 = 4 ∧
    specQuantizedDuration 0 60 = 1/8 := by
  refine ⟨?_, rfl, specQuantizedDuration_1000_60, specQuantizedDuration_4000_60,
    specQuantizedDuration_0_60⟩
  simp only [quantizeLastNote, specQuantizedDuration, MConfig.tempo]
  norm_num

/-- Witness for C2: quantizing a note at 1000ms elapsed, tempo 60, sets its
quarterLength to 1 (here overwriting a prior duration of 99). -/
theorem quantizeLastNote_formula_witness :
    (0 : ℚ) < sampleConfig.tempo ∧
    (quantizeLastNote sampleConfig 1000 (some (MElement.noteEl wNote))).1 =
      some (MElement.noteEl { ps := 60, quarterLength := 1, stemDirection := none }) := by
  have h := quantizeLastNote_formula (MElement.noteEl wNote) sampleConfig 1000
    (by norm_num [MConfig.tempo, sampleConfig])
  refine ⟨by norm_num [MConfig.tempo, sampleConfig], ?_⟩
  rw [h.1, show (1000 - sampleConfig.timeOfLastNote : ℚ) = 1000 by norm_num [sampleConfig],
    show sampleConfig.tempo = 60 from rfl, specQuantizedDuration_1000_60]
  rfl

/- ------------------ C4 ------------------ -/

/-- C4: a flush of a non-empty pending list emits exactly one element — with
two or more pending notes, a single chord holding exactly the pending notes
in first-seen order (so duplicate-freeness of the pitches is preserved), and
with exactly one pending note, that note itself, not wrapped in a chord. -/
theorem sendOutChord_emits_single_element (st : MConfig) (now : ℚ)
    (notes : List MNote) (h : notes ≠ [])
    (hcb : st.sendOutChordCbDefined = true) :
    ∃ x, (sendOutChord st now notes).ret = some x ∧
      (sendOutChord st now notes).emitted = [x] ∧
      (2 ≤ notes.length →
        x = MElement.chordEl
          { notes := notes, quarterLength := 1, stemDirection := some "noStem" }) ∧
      (notes.length = 1 →
        x = MElement.noteEl { notes.head h with stemDirection := some "noStem" }) ∧
      ((notes.map MNote.ps).Nodup →
        ∀ ch, x = MElement.chordEl ch → (ch.notes.map MNote.ps).Nodup) := by
  cases notes with
  | nil => exact absurd rfl h
  | cons n rest =>
    cases rest with
    | nil =>
      refine ⟨MElement.noteEl { n with stemDirection := some "noStem" }, ?_, ?_, ?_, ?_, ?_⟩
      · simp [sendOutChord, MElement.setStem]
      · simp [sendOutChord, quantizeLastNote, MElement.setStem, hcb]
      · intro hlen
        simp at hlen
      · intro _
        rfl
      · intro _ ch hch
        cases hch
    | cons m rs =>
      have hl : 1 < (n :: m :: rs).length := by simp
      refine ⟨MElement.chordEl
          { notes := n :: m :: rs, quarterLength := 1, stemDirection := some "noStem" },
        ?_, ?_, ?_, ?_, ?_⟩
      · simp [sendOutChord, hl, chordOf, MElement.setStem]
      · simp [sendOutChord, quantizeLastNote, hl, chordOf, MElement.setStem, hcb]
      · intro _
        rfl
      · intro hlen
        simp at hlen
      · intro hnd ch hch
        injection hch with hch
        rw [← hch]
        exact hnd

/-- Witness for C4: flushing two distinct pending pitches emits exactly one
chord. -/
theorem sendOutChord_emits_single_element_witness :
    ([sampleNote, wNote3] ≠ ([] : List MNote)) ∧
    sampleConfig.sendOutChordCbDefined = true ∧
    ∃ x, (sendOutChord sampleConfig 0 [sampleNote, wNote3]).ret = some x ∧
      (sendOutChord sampleConfig 0 [sampleNote, wNote3]).emitted = [x] := by
  obtain ⟨x, h1, h2, _⟩ :=
    sendOutChord_emits_single_element sampleConfig 0 [sampleNote, wNote3] (by decide) rfl
  exact ⟨by decide, rfl, x, h1, h2⟩

/- ------------------ C5 ------------------ -/

/-- C5 counterexample: a tick at 200ms with nothing pending and
`heldChordTime = 0`, `maxDelay = 100` emits nothing, yet advances
`heldChordTime` to 200 — refuting the claim that such a tick leaves all
aggregator state, including `heldChordTime`, unchanged. -/
theorem clearOldChords_updates_heldChordTime_counterexample :
    (clearOldChords sampleConfig 200).emitted = [] ∧
    sampleConfig.heldChordNotes = none ∧
    sampleConfig.heldChordTime = 0 ∧
    (clearOldChords sampleConfig 200).state.heldChordTime = 200 := by
  refine ⟨?_, rfl, rfl, ?_⟩ <;> norm_num [clearOldChords, sampleConfig]

/-- C5 (amended): a tick with zero pending notes emits nothing and leaves
the held list, `lastElement` and the quantizer timestamp unchanged;
`heldChordTime`, however, is unchanged only while the window has not yet
expired — when `heldChordTime + maxDelay < now` the tick advances it to
`now`. -/
theorem clearOldChords_empty_tick (st : MConfig) (now : ℚ)
    (h : st.heldChordNotes = none) :
    (clearOldChords st now).emitted = [] ∧
    (clearOldChords st now).state.heldChordNotes = none ∧
    (clearOldChords st now).state.lastElement = st.lastElement ∧
    (clearOldChords st now).state.timeOfLastNote = st.timeOfLastNote ∧
    (clearOldChords st now).state.heldChordTime =
      (if st.heldChordTime + st.maxDelay < now then now else st.heldChordTime) := by
  by_cases hc : st.heldChordTime + st.maxDelay < now <;>
    simp [clearOldChords, h, hc]

/-- Witness for C5 (amended) at the concrete counterexample input. -/
theorem clearOldChords_empty_tick_witness :
    sampleConfig.heldChordNotes = none ∧
    (clearOldChords sampleConfig 200).emitted = [] ∧
    (clearOldChords sampleConfig 200).state.heldChordTime = 200 := by
  have h := clearOldChords_empty_tick sampleConfig 200 rfl
  refine ⟨rfl, h.1, h.2.2.2.2.trans ?_⟩
  norm_num [sampleConfig]

/- ------------------ C8 ------------------ -/

lemma cloneCycleAux : ∀ (fuel next : ℕ),
    cloneObj fuel cyclicHeap next [] 0 = CloneRes.diverge ∧
    cloneObj fuel cyclicHeap next [] 1 = CloneRes.diverge := by
  intro fuel
  induction fuel with
  | zero => intro next; exact ⟨rfl, rfl⟩
  | succ n ih =>
    intro next
    constructor
    · have h2 := (ih (next + 1)).2
      simp only [cyclicHeap] at h2
      simp [cloneObj, cloneFieldsWith, cyclicHeap, List.lookup, h2]
    · have h1 := (ih (next + 1)).1
      simp only [cyclicHeap] at h1
      simp [cloneObj, cloneFieldsWith, cyclicHeap, List.lookup, h1]

/-- C8: `clone(true)` on two ProtoM21Objects that reference each other never
finishes, for any recursion depth — the source constructs the visited map
but never writes to it (there is no `memo.set`), so `memo.has` is always
false and the mutual reference is re-entered forever.  This is the
evaluation of the deep clone at the failing input of the code bug. -/
theorem clone_cycle_diverges :
    ∀ fuel, cloneObj fuel cyclicHeap 2 [] 0 = CloneRes.diverge :=
  fun fuel => (cloneCycleAux fuel 2).1

/- ------------------ C9 ------------------ -/

/-- C9: during the field-copy loop of a deep clone (over fields whose copy
never recurses), a raised error is swallowed, with the loop continuing, if
and only if it is a TypeError; the first non-TypeError raised propagates to
the caller, and when every raised error is a TypeError the loop succeeds and
copies exactly the plain value fields, in order. -/
theorem clone_field_error_policy (fields : List (String × FieldSpec))
    (recur : Heap → ℕ → Memo → ℕ → CloneRes (ℕ × Heap × ℕ))
    (heap : Heap) (next : ℕ) (memo : Memo)
    (hflat : flatFields fields = true) :
    cloneFieldsWith recur heap next memo fields =
      (match firstNonTE fields with
       | some i => CloneRes.err false i
       | none => CloneRes.ok (copiedFields fields, heap, next)) := by
  induction fields with
  | nil => rfl
  | cons kv rest ih =>
    obtain ⟨k, fs⟩ := kv
    simp only [flatFields, Bool.and_eq_true, Bool.not_eq_true'] at hflat
    obtain ⟨href, hrest⟩ := hflat
    have ihr := ih hrest
    cases fs with
    | val v =>
      cases v with
      | ref a => simp [FieldSpec.isRef] at href
      | num q =>
        simp only [cloneFieldsWith, ihr]
        cases hft : firstNonTE rest <;> simp [firstNonTE, copiedFields, hft]
      | str s =>
        simp only [cloneFieldsWith, ihr]
        cases hft : firstNonTE rest <;> simp [firstNonTE, copiedFields, hft]
    | func =>
      simp only [cloneFieldsWith, ihr]
      cases hft : firstNonTE rest <;> simp [firstNonTE, copiedFields, hft]
    | accessor =>
      simp only [cloneFieldsWith, ihr]
      cases hft : firstNonTE rest <;> simp [firstNonTE, copiedFields, hft]
    | throwing b i =>
      cases b with
      | true =>
        simp only [cloneFieldsWith, ihr]
        cases hft : firstNonTE rest <;> simp [firstNonTE, copiedFields, hft]
      | false => simp [cloneFieldsWith, firstNonTE]

/-- Witness for C9: a flat field list with a plain value, a TypeError-raising
field, another plain value and an accessor clones to exactly the two plain
values — the TypeError was swallowed and the loop continued past it. -/
theorem clone_field_error_policy_witness :
    flatFields sampleFields = true ∧
    cloneFieldsWith (fun _ _ _ _ => CloneRes.diverge) [] 0 [] sampleFields =
      CloneRes.ok ([("a", FieldSpec.val (JVal.num 1)), ("c", FieldSpec.val (JVal.str "x"))],
        [], 0) := by
  have h := clone_field_error_policy sampleFields
    (fun _ _ _ _ => CloneRes.diverge) [] 0 [] (by decide)
  exact ⟨by decide, h.trans (by decide)⟩
